import Mathlib

/-!
Shallow embedding of `blackjack_simulation.py`, a Monte Carlo blackjack
card-counting simulator.

Modelling conventions:
* Money and probabilities are exact rationals (`ℚ`), standing in for Python
  floats.
* The two sources of randomness are explicit oracles: `shuffle : ℕ → List Card`
  yields the deck produced by the k-th call to `random.shuffle` within a run
  (index 0 is the initial shuffled deck), and `outcomes : ℕ → Outcome` yields
  the outcome sampled by `np.random.choice` in round i.
* Python `list.pop()` removes the last element; it is modelled with
  `List.getLast?` / `List.dropLast`, returning `none` on an empty deck
  (in Python this would raise).
* Python `int()` truncation toward zero is modelled by `pyInt`.
-/

/-- The thirteen card ranks, the keys of `card_values` in the source. -/
inductive Card where
  | c2 | c3 | c4 | c5 | c6 | c7 | c8 | c9 | c10 | cJ | cQ | cK | cA
deriving DecidableEq

/-- Hi-Lo count values of the ranks (`card_values` dict, lines 39-43). -/
def card_values : Card → ℤ
  | .c2 | .c3 | .c4 | .c5 | .c6 => 1
  | .c7 | .c8 | .c9 => 0
  | .c10 | .cJ | .cQ | .cK | .cA => -1

/-- `list(card_values.keys())`: the ranks in dictionary order. -/
def ranks : List Card :=
  [.c2, .c3, .c4, .c5, .c6, .c7, .c8, .c9, .c10, .cJ, .cQ, .cK, .cA]

/-- `cards = list(card_values.keys()) * 4 * num_decks` (line 44). -/
def cards (num_decks : ℕ) : List Card :=
  (List.replicate (4 * num_decks) ranks).flatten

/-- `get_true_count` (lines 46-47):
`running_count / decks_remaining if decks_remaining > 0 else 0`. -/
def get_true_count (running_count decks_remaining : ℚ) : ℚ :=
  if 0 < decks_remaining then running_count / decks_remaining else 0

/-- Python `int()` applied to a rational: truncation toward zero. -/
def pyInt (q : ℚ) : ℤ :=
  if 0 ≤ q then ⌊q⌋ else -⌊-q⌋

/-- The betting policy (lines 66-69):
`bet = min_bet; if true_count > 1: bet *= min(spread, int(true_count));
bet = min(bankroll, bet)`. -/
def bet_size (min_bet : ℚ) (spread : ℤ) (true_count bankroll : ℚ) : ℚ :=
  let bet : ℚ := min_bet
  let bet : ℚ :=
    if 1 < true_count then bet * ((min spread (pyInt true_count) : ℤ) : ℚ) else bet
  min bankroll bet

/-- `win_prob = 0.48 + min(0.01 * max(0, true_count - 1), 0.05)` (line 72). -/
def win_prob (true_count : ℚ) : ℚ :=
  0.48 + min (0.01 * max 0 (true_count - 1)) 0.05

/-- `push_prob = 0.08` (line 74). -/
def push_prob : ℚ := 0.08

/-- `lose_prob = 1 - win_prob - 0.08` (line 73). -/
def lose_prob (true_count : ℚ) : ℚ :=
  1 - win_prob true_count - 0.08

/-- The "safety correction" (lines 77-79): if the three probabilities do not
sum to 1, the residual is added to the lose probability. -/
def adjusted_lose_prob (true_count : ℚ) : ℚ :=
  if win_prob true_count + lose_prob true_count + push_prob ≠ 1 then
    lose_prob true_count + (1 - (win_prob true_count + lose_prob true_count + push_prob))
  else
    lose_prob true_count

/-- The three possible sampled round outcomes (line 81). -/
inductive Outcome where
  | win | lose | push
deriving DecidableEq

/-- Applying a round outcome to the bankroll (lines 82-85): win pays
`bet * 1.5`, lose subtracts `bet`, push leaves the bankroll unchanged. -/
def applyOutcome (o : Outcome) (bet bankroll : ℚ) : ℚ :=
  match o with
  | .win => bankroll + bet * 1.5
  | .lose => bankroll - bet
  | .push => bankroll

/-- The sidebar configuration parameters (lines 31-36). -/
structure Config where
  initial_bankroll : ℚ
  min_bet : ℚ
  spread : ℤ
  num_hands : ℕ
  num_decks : ℕ

/-- The mutable state of one simulated run: the remaining shoe, the running
count, the current bankroll, the recorded trajectory, and the number of
shuffle calls consumed so far (index into the shuffle oracle). -/
structure SimState where
  deck : List Card
  running_count : ℤ
  bankroll : ℚ
  bankrolls : List ℚ
  nshuffles : ℕ

/-- Lines 57-60: `if len(deck) < 52: deck = cards.copy(); random.shuffle(deck);
running_count = 0`. -/
def reshuffleIfNeeded (shuffle : ℕ → List Card) (s : SimState) : SimState :=
  if s.deck.length < 52 then
    { s with deck := shuffle s.nshuffles, running_count := 0,
             nshuffles := s.nshuffles + 1 }
  else s

/-- One loop iteration body (lines 57-87): reshuffle check, draw via
`deck.pop()`, count update, true count, bet, outcome application, and
appending the post-round bankroll. Returns `none` if the pop hits an empty
deck (a Python exception). -/
def simStep (cfg : Config) (shuffle : ℕ → List Card) (o : Outcome)
    (s : SimState) : Option SimState :=
  let t := reshuffleIfNeeded shuffle s
  match t.deck.getLast? with
  | none => none
  | some card =>
    let deck := t.deck.dropLast
    let rc := t.running_count + card_values card
    let true_count := get_true_count (rc : ℚ) ((deck.length : ℚ) / 52)
    let bet := bet_size cfg.min_bet cfg.spread true_count t.bankroll
    let bankroll := applyOutcome o bet t.bankroll
    some { deck := deck, running_count := rc, bankroll := bankroll,
           bankrolls := t.bankrolls ++ [bankroll], nshuffles := t.nshuffles }

/-- The `for _ in range(num_hands)` loop (lines 56-90), with the early
`break` once the bankroll is ≤ 0. The first argument is the remaining
iteration count, the second the round index feeding the outcome oracle. -/
def simLoop (cfg : Config) (shuffle : ℕ → List Card) (outcomes : ℕ → Outcome) :
    ℕ → ℕ → SimState → Option SimState
  | 0, _, s => some s
  | n + 1, i, s =>
    match simStep cfg shuffle (outcomes i) s with
    | none => none
    | some t => if t.bankroll ≤ 0 then some t else simLoop cfg shuffle outcomes n (i + 1) t

/-- The run state as of lines 50-54: freshly shuffled full deck, zero count,
initial bankroll, empty trajectory. -/
def initState (cfg : Config) (shuffle : ℕ → List Card) : SimState :=
  { deck := shuffle 0, running_count := 0, bankroll := cfg.initial_bankroll,
    bankrolls := [], nshuffles := 1 }

/-- `simulate_single_run` (lines 49-92): returns the recorded bankroll
trajectory, or `none` if a draw ever hit an empty deck. -/
def simulate_single_run (cfg : Config) (shuffle : ℕ → List Card)
    (outcomes : ℕ → Outcome) : Option (List ℚ) :=
  (simLoop cfg shuffle outcomes cfg.num_hands 0 (initState cfg shuffle)).map
    SimState.bankrolls

/-- `max_length = max(len(r) for r in all_results)` (line 96); for a
non-empty list of rows this fold equals the Python `max`. -/
def max_length (rs : List (List ℚ)) : ℕ :=
  rs.foldr (fun r acc => max r.length acc) 0

/-- `r + [r[-1]] * (max_length - len(r))` for one row (line 97); `none` when
`r` is empty (Python `r[-1]` would raise). -/
def pad_row (m : ℕ) (r : List ℚ) : Option (List ℚ) :=
  (r.getLast?).map (fun x => r ++ List.replicate (m - r.length) x)

/-- The list comprehension of line 97 over all rows. -/
def pad_rows (m : ℕ) : List (List ℚ) → Option (List (List ℚ))
  | [] => some []
  | r :: rs =>
    match pad_row m r, pad_rows m rs with
    | some p, some ps => some (p :: ps)
    | _, _ => none

/-- `padded_results` (lines 96-97): `none` when there are no rows (Python
`max` over an empty sequence raises). -/
def padded_results (rs : List (List ℚ)) : Option (List (List ℚ)) :=
  if rs.isEmpty then none else pad_rows (max_length rs) rs

/-! ### Helper lemmas -/

lemma ranks_length : ranks.length = 13 := rfl

lemma cards_length (d : ℕ) : (cards d).length = 52 * d := by
  unfold cards
  rw [List.length_flatten, List.map_replicate, ranks_length, List.sum_replicate,
    smul_eq_mul]
  ring

lemma pyInt_of_one_lt {q : ℚ} (h : 1 < q) : 1 ≤ pyInt q := by
  unfold pyInt
  rw [if_pos (le_of_lt (lt_trans zero_lt_one h))]
  exact Int.le_floor.mpr (by exact_mod_cast h.le)

lemma bet_size_bounds {min_bet : ℚ} {spread : ℤ} {true_count bankroll : ℚ}
    (hm : 0 < min_bet) (hs : 1 ≤ spread) (hb : 0 ≤ bankroll) :
    0 ≤ bet_size min_bet spread true_count bankroll ∧
    bet_size min_bet spread true_count bankroll ≤ bankroll := by
  unfold bet_size
  refine ⟨le_min hb ?_, min_le_left _ _⟩
  split
  · rename_i htc
    have h1 : (1 : ℤ) ≤ min spread (pyInt true_count) :=
      le_min hs (pyInt_of_one_lt htc)
    have h2 : (1 : ℚ) ≤ ((min spread (pyInt true_count) : ℤ) : ℚ) := by
      exact_mod_cast h1
    nlinarith
  · exact hm.le

lemma resh_bankroll (shuffle : ℕ → List Card) (s : SimState) :
    (reshuffleIfNeeded shuffle s).bankroll = s.bankroll := by
  unfold reshuffleIfNeeded; split <;> rfl

lemma resh_bankrolls (shuffle : ℕ → List Card) (s : SimState) :
    (reshuffleIfNeeded shuffle s).bankrolls = s.bankrolls := by
  unfold reshuffleIfNeeded; split <;> rfl

lemma resh_deck_ge {cfg : Config} {shuffle : ℕ → List Card}
    (hd : 1 ≤ cfg.num_decks)
    (hsh : ∀ n, (shuffle n).length = 52 * cfg.num_decks) (s : SimState) :
    52 ≤ (reshuffleIfNeeded shuffle s).deck.length := by
  unfold reshuffleIfNeeded
  split
  · simpa [hsh] using Nat.le_mul_of_pos_right 52 hd
  · omega

lemma simStep_spec {cfg : Config} {shuffle : ℕ → List Card} {o : Outcome}
    {s t : SimState} (h : simStep cfg shuffle o s = some t) :
    (∃ tc : ℚ, t.bankroll =
        applyOutcome o (bet_size cfg.min_bet cfg.spread tc s.bankroll) s.bankroll) ∧
    t.bankrolls = s.bankrolls ++ [t.bankroll] ∧
    t.deck = (reshuffleIfNeeded shuffle s).deck.dropLast := by
  cases hg : (reshuffleIfNeeded shuffle s).deck.getLast? with
  | none => simp [simStep, hg] at h
  | some card =>
    simp only [simStep, hg, resh_bankroll, resh_bankrolls, Option.some.injEq] at h
    subst h
    exact ⟨⟨_, rfl⟩, rfl, rfl⟩

lemma simStep_isSome {cfg : Config} {shuffle : ℕ → List Card} (o : Outcome)
    (s : SimState) (hd : 1 ≤ cfg.num_decks)
    (hsh : ∀ n, (shuffle n).length = 52 * cfg.num_decks) :
    (simStep cfg shuffle o s).isSome = true := by
  have hge := resh_deck_ge hd hsh s
  have hne : (reshuffleIfNeeded shuffle s).deck ≠ [] := by
    intro hnil; rw [hnil] at hge; simp at hge
  cases hg : (reshuffleIfNeeded shuffle s).deck.getLast? with
  | none => exact absurd (List.getLast?_eq_none_iff.mp hg) hne
  | some card => simp [simStep, hg]

lemma simStep_bankroll_nonneg {cfg : Config} {shuffle : ℕ → List Card} {o : Outcome}
    {s u : SimState} (hmb : 0 < cfg.min_bet) (hsp : 1 ≤ cfg.spread)
    (hb : 0 ≤ s.bankroll) (h : simStep cfg shuffle o s = some u) :
    0 ≤ u.bankroll := by
  obtain ⟨⟨tc, hbr⟩, -, -⟩ := simStep_spec h
  have hbd := @bet_size_bounds cfg.min_bet cfg.spread tc s.bankroll hmb hsp hb
  rw [hbr]
  cases o with
  | win => simp only [applyOutcome]; nlinarith [hbd.1]
  | lose => simp only [applyOutcome]; linarith [hbd.2]
  | push => simpa [applyOutcome] using hb

lemma simStep_deck_le {cfg : Config} {shuffle : ℕ → List Card} {o : Outcome}
    {s u : SimState} (hsh : ∀ n, (shuffle n).length = 52 * cfg.num_decks)
    (hlen : s.deck.length ≤ 52 * cfg.num_decks)
    (h : simStep cfg shuffle o s = some u) :
    u.deck.length ≤ 52 * cfg.num_decks := by
  have hd := (simStep_spec h).2.2
  rw [hd, List.length_dropLast]
  have hresh : (reshuffleIfNeeded shuffle s).deck.length ≤ 52 * cfg.num_decks := by
    unfold reshuffleIfNeeded
    split
    · simp [hsh]
    · exact hlen
  omega

lemma simLoop_len {cfg : Config} {shuffle : ℕ → List Card} {outcomes : ℕ → Outcome}
    (fuel : ℕ) :
    ∀ (i : ℕ) (s t : SimState), simLoop cfg shuffle outcomes fuel i s = some t →
      t.bankrolls.length ≤ s.bankrolls.length + fuel ∧
      s.bankrolls.length ≤ t.bankrolls.length ∧
      (1 ≤ fuel → s.bankrolls.length < t.bankrolls.length) := by
  induction fuel with
  | zero =>
    intro i s t h
    simp only [simLoop, Option.some.injEq] at h
    subst h
    omega
  | succ n ih =>
    intro i s t h
    rw [simLoop] at h
    cases hstep : simStep cfg shuffle (outcomes i) s with
    | none => simp only [hstep] at h; exact Option.noConfusion h
    | some u =>
      simp only [hstep] at h
      have hlen : u.bankrolls.length = s.bankrolls.length + 1 := by
        rw [(simStep_spec hstep).2.1, List.length_append, List.length_singleton]
      split at h
      · injection h with h2
        subst h2
        omega
      · have hi := ih (i + 1) u t h
        omega

lemma simLoop_pos {cfg : Config} {shuffle : ℕ → List Card} {outcomes : ℕ → Outcome}
    (fuel : ℕ) :
    ∀ (i : ℕ) (s t : SimState), (∀ x ∈ s.bankrolls, 0 < x) →
      simLoop cfg shuffle outcomes fuel i s = some t →
      ∀ x ∈ t.bankrolls.dropLast, 0 < x := by
  induction fuel with
  | zero =>
    intro i s t hall h
    simp only [simLoop, Option.some.injEq] at h
    subst h
    exact fun x hx => hall x (List.dropLast_subset _ hx)
  | succ n ih =>
    intro i s t hall h
    rw [simLoop] at h
    cases hstep : simStep cfg shuffle (outcomes i) s with
    | none => simp only [hstep] at h; exact Option.noConfusion h
    | some u =>
      simp only [hstep] at h
      have hbr : u.bankrolls = s.bankrolls ++ [u.bankroll] := (simStep_spec hstep).2.1
      split at h
      · injection h with h2
        subst h2
        rw [hbr, List.dropLast_concat]
        exact hall
      · rename_i hb
        refine ih (i + 1) u t ?_ h
        intro x hx
        rw [hbr] at hx
        rcases List.mem_append.mp hx with hx | hx
        · exact hall x hx
        · rw [List.mem_singleton.mp hx]
          exact lt_of_not_le hb

lemma simLoop_nonneg {cfg : Config} {shuffle : ℕ → List Card} {outcomes : ℕ → Outcome}
    (hmb : 0 < cfg.min_bet) (hsp : 1 ≤ cfg.spread) (fuel : ℕ) :
    ∀ (i : ℕ) (s t : SimState), 0 ≤ s.bankroll → (∀ x ∈ s.bankrolls, 0 ≤ x) →
      simLoop cfg shuffle outcomes fuel i s = some t →
      ∀ x ∈ t.bankrolls, 0 ≤ x := by
  induction fuel with
  | zero =>
    intro i s t hb hall h
    simp only [simLoop, Option.some.injEq] at h
    subst h
    exact hall
  | succ n ih =>
    intro i s t hb hall h
    rw [simLoop] at h
    cases hstep : simStep cfg shuffle (outcomes i) s with
    | none => simp only [hstep] at h; exact Option.noConfusion h
    | some u =>
      simp only [hstep] at h
      have hub : 0 ≤ u.bankroll := simStep_bankroll_nonneg hmb hsp hb hstep
      have hbr : u.bankrolls = s.bankrolls ++ [u.bankroll] := (simStep_spec hstep).2.1
      have hallu : ∀ x ∈ u.bankrolls, 0 ≤ x := by
        intro x hx
        rw [hbr] at hx
        rcases List.mem_append.mp hx with hx | hx
        · exact hall x hx
        · rw [List.mem_singleton.mp hx]
          exact hub
      split at h
      · injection h with h2
        subst h2
        exact hallu
      · exact ih (i + 1) u t hub hallu h

lemma simLoop_deck_le {cfg : Config} {shuffle : ℕ → List Card} {outcomes : ℕ → Outcome}
    (hsh : ∀ n, (shuffle n).length = 52 * cfg.num_decks) (fuel : ℕ) :
    ∀ (i : ℕ) (s t : SimState), s.deck.length ≤ 52 * cfg.num_decks →
      simLoop cfg shuffle outcomes fuel i s = some t →
      t.deck.length ≤ 52 * cfg.num_decks := by
  induction fuel with
  | zero =>
    intro i s t hlen h
    simp only [simLoop, Option.some.injEq] at h
    subst h
    exact hlen
  | succ n ih =>
    intro i s t hlen h
    rw [simLoop] at h
    cases hstep : simStep cfg shuffle (outcomes i) s with
    | none => simp only [hstep] at h; exact Option.noConfusion h
    | some u =>
      simp only [hstep] at h
      have hu : u.deck.length ≤ 52 * cfg.num_decks := simStep_deck_le hsh hlen hstep
      split at h
      · injection h with h2
        subst h2
        exact hu
      · exact ih (i + 1) u t hu h

lemma max_length_cons (a : List ℚ) (as : List (List ℚ)) :
    max_length (a :: as) = max a.length (max_length as) := rfl

lemma length_le_max_length {r : List ℚ} {rs : List (List ℚ)} (h : r ∈ rs) :
    r.length ≤ max_length rs := by
  induction rs with
  | nil => cases h
  | cons a as ih =>
    rw [max_length_cons]
    rcases List.mem_cons.mp h with rfl | h2
    · exact le_max_left _ _
    · exact le_trans (ih h2) (le_max_right _ _)

lemma getLast?_of_ne_nil {r : List ℚ} (h : r ≠ []) :
    r.getLast? = some (r.getLastD 0) := by
  cases hg : r.getLast? with
  | none => exact absurd (List.getLast?_eq_none_iff.mp hg) h
  | some y => rw [List.getLastD_eq_getLast?, hg]; rfl

lemma pad_rows_eq (m : ℕ) (rs : List (List ℚ)) (hall : ∀ r ∈ rs, r ≠ []) :
    pad_rows m rs =
      some (rs.map (fun r => r ++ List.replicate (m - r.length) (r.getLastD 0))) := by
  induction rs with
  | nil => rfl
  | cons a as ih =>
    have ha : a ≠ [] := hall a (List.mem_cons_self a as)
    have hrow : pad_row m a =
        some (a ++ List.replicate (m - a.length) (a.getLastD 0)) := by
      unfold pad_row
      rw [getLast?_of_ne_nil ha]
      rfl
    simp only [pad_rows, hrow, ih (fun r hr => hall r (List.mem_cons_of_mem _ hr)),
      List.map_cons]

lemma pad_map_length (m : ℕ) (rs : List (List ℚ)) (hle : ∀ r ∈ rs, r.length ≤ m) :
    (rs.map (fun r => r ++ List.replicate (m - r.length) (r.getLastD 0))).map
      List.length = List.replicate rs.length m := by
  induction rs with
  | nil => rfl
  | cons a as ih =>
    have ha := hle a (List.mem_cons_self a as)
    rw [List.map_cons, List.map_cons, List.length_cons, List.replicate_succ,
      ih (fun r hr => hle r (List.mem_cons_of_mem _ hr))]
    congr 1
    simp only [List.length_append, List.length_replicate]
    omega

/-! ### Claim theorems -/

/-- C1: whenever the betting policy is invoked with a positive bankroll,
positive min_bet and spread ≥ 1, the returned bet is at least 0 and never
exceeds the current bankroll, for every value of true_count. -/
theorem bet_size_within_bankroll (min_bet : ℚ) (spread : ℤ)
    (true_count bankroll : ℚ) (hb : 0 < bankroll) (hm : 0 < min_bet)
    (hs : 1 ≤ spread) :
    0 ≤ bet_size min_bet spread true_count bankroll ∧
    bet_size min_bet spread true_count bankroll ≤ bankroll :=
  bet_size_bounds hm hs hb.le

theorem bet_size_within_bankroll_witness :
    (0:ℚ) < 50 ∧ (0:ℚ) < 100 ∧ (1:ℤ) ≤ 1 ∧
    (0 ≤ bet_size 100 1 7 50 ∧ bet_size 100 1 7 50 ≤ 50) :=
  ⟨by norm_num, by norm_num, le_refl 1,
    bet_size_within_bankroll 100 1 7 50 (by norm_num) (by norm_num) (le_refl 1)⟩

/-- C5: for every true_count (including large and negative values), after
the corrective adjustment the three outcome probabilities sum to exactly 1. -/
theorem outcome_probs_sum_to_one (true_count : ℚ) :
    win_prob true_count + adjusted_lose_prob true_count + push_prob = 1 := by
  unfold adjusted_lose_prob
  split
  · ring
  · rename_i h
    rw [not_ne_iff] at h
    linarith [h]

/-- C6: the win probability is monotonically non-decreasing in true_count
for true_count > 1, and for every true_count it is at most 0.53. -/
theorem win_prob_monotone_capped (a b tc : ℚ) (_h1 : 1 < a) (hab : a ≤ b) :
    win_prob a ≤ win_prob b ∧ win_prob tc ≤ 0.53 := by
  constructor
  · unfold win_prob
    have h2 : max 0 (a - 1) ≤ max 0 (b - 1) := max_le_max le_rfl (by linarith)
    have h3 : (0.01:ℚ) * max 0 (a - 1) ≤ 0.01 * max 0 (b - 1) :=
      mul_le_mul_of_nonneg_left h2 (by norm_num)
    exact add_le_add_left (min_le_min h3 le_rfl) _
  · unfold win_prob
    have h4 := min_le_right ((0.01:ℚ) * max 0 (tc - 1)) 0.05
    linarith

theorem win_prob_monotone_capped_witness :
    (1:ℚ) < 2 ∧ (2:ℚ) ≤ 3 ∧ (win_prob 2 ≤ win_prob 3 ∧ win_prob 0 ≤ 0.53) :=
  ⟨by norm_num, by norm_num,
    win_prob_monotone_capped 2 3 0 (by norm_num) (by norm_num)⟩

/-- C7 counterexample: the betting policy clamps the bet to the bankroll, so
with spread = 1, min_bet = 100, bankroll = 50 and true_count = 0 it returns
50, not min_bet = 100 — the claim as stated fails. -/
theorem spread_one_bet_cex : bet_size 100 1 0 50 = 50 ∧ (50:ℚ) ≠ 100 := by
  norm_num [bet_size, min_def]

/-- C7 amended: when the configured spread is 1 and the current bankroll is
at least min_bet, the bet returned is exactly min_bet, for every value of
true_count. -/
theorem spread_one_bet_eq_min_bet (min_bet true_count bankroll : ℚ)
    (h : min_bet ≤ bankroll) :
    bet_size min_bet 1 true_count bankroll = min_bet := by
  simp only [bet_size]
  split
  · rename_i htc
    rw [min_eq_left (pyInt_of_one_lt htc), Int.cast_one, mul_one]
    exact min_eq_right h
  · exact min_eq_right h

theorem spread_one_bet_eq_min_bet_witness :
    (100:ℚ) ≤ 200 ∧ bet_size 100 1 5 200 = 100 :=
  ⟨by norm_num, spread_one_bet_eq_min_bet 100 5 200 (by norm_num)⟩

/-- C8: the true-count function is total: it returns
`running_count / (cards_remaining / 52)` when cards_remaining > 0 and 0 when
cards_remaining = 0, so no division by zero occurs. -/
theorem get_true_count_total (running_count : ℚ) (cards_remaining : ℕ) :
    (0 < cards_remaining →
      get_true_count running_count ((cards_remaining : ℚ) / 52) =
        running_count / ((cards_remaining : ℚ) / 52)) ∧
    (cards_remaining = 0 →
      get_true_count running_count ((cards_remaining : ℚ) / 52) = 0) := by
  constructor
  · intro h
    unfold get_true_count
    rw [if_pos (div_pos (by exact_mod_cast h) (by norm_num))]
  · intro h
    subst h
    simp [get_true_count]

theorem get_true_count_total_witness :
    (0 < 26 ∧ get_true_count 5 (((26:ℕ) : ℚ) / 52) = 5 / (((26:ℕ) : ℚ) / 52)) ∧
    ((0:ℕ) = 0 ∧ get_true_count 5 (((0:ℕ) : ℚ) / 52) = 0) :=
  ⟨⟨by norm_num, (get_true_count_total 5 26).1 (by norm_num)⟩,
    ⟨rfl, (get_true_count_total 5 0).2 rfl⟩⟩

/-! ### Concrete run evaluations used by witnesses -/

lemma ruin_run_eval :
    simulate_single_run ⟨1, 1, 1, 1, 1⟩ (fun _ => [Card.c7]) (fun _ => Outcome.lose)
      = some [0] := by
  norm_num [simulate_single_run, simLoop, simStep, reshuffleIfNeeded, initState,
    get_true_count, bet_size, applyOutcome, min_def]

lemma push_run_eval :
    simulate_single_run ⟨1, 1, 1, 1, 1⟩ (fun _ => [Card.c7]) (fun _ => Outcome.push)
      = some [1] := by
  norm_num [simulate_single_run, simLoop, simStep, reshuffleIfNeeded, initState,
    get_true_count, bet_size, applyOutcome, min_def]

/-- C2: for every configuration with at least one hand, every trajectory
produced by a single simulated run is non-empty and has length at most the
configured hand limit. -/
theorem trajectory_length_bounds (cfg : Config) (shuffle : ℕ → List Card)
    (outcomes : ℕ → Outcome) (traj : List ℚ) (h1 : 1 ≤ cfg.num_hands)
    (hsim : simulate_single_run cfg shuffle outcomes = some traj) :
    1 ≤ traj.length ∧ traj.length ≤ cfg.num_hands := by
  unfold simulate_single_run at hsim
  cases hl : simLoop cfg shuffle outcomes cfg.num_hands 0 (initState cfg shuffle) with
  | none => rw [hl] at hsim; exact Option.noConfusion hsim
  | some t =>
    rw [hl] at hsim
    simp only [Option.map_some', Option.some.injEq] at hsim
    subst hsim
    obtain ⟨ha, hb, hc⟩ := simLoop_len cfg.num_hands 0 (initState cfg shuffle) t hl
    have h0 : (initState cfg shuffle).bankrolls.length = 0 := rfl
    have hd := hc h1
    constructor
    · omega
    · omega

theorem trajectory_length_bounds_witness :
    1 ≤ (⟨1, 1, 1, 1, 1⟩ : Config).num_hands ∧
    simulate_single_run ⟨1, 1, 1, 1, 1⟩ (fun _ => [Card.c7]) (fun _ => Outcome.push)
      = some [1] ∧
    (1 ≤ ([(1:ℚ)]).length ∧ ([(1:ℚ)]).length ≤ (⟨1, 1, 1, 1, 1⟩ : Config).num_hands) :=
  ⟨le_refl 1, push_run_eval,
    trajectory_length_bounds ⟨1, 1, 1, 1, 1⟩ (fun _ => [Card.c7])
      (fun _ => Outcome.push) [1] (le_refl 1) push_run_eval⟩

/-- C3: ruin is terminal: in any produced trajectory, a recorded bankroll
value ≤ 0 can only be the last element of the (unpadded) trajectory — no
further rounds are recorded once the bankroll reaches zero or below. -/
theorem ruin_is_terminal (cfg : Config) (shuffle : ℕ → List Card)
    (outcomes : ℕ → Outcome) (traj : List ℚ) (j : ℕ)
    (hsim : simulate_single_run cfg shuffle outcomes = some traj)
    (hj : j < traj.length) (hle : traj.get ⟨j, hj⟩ ≤ 0) :
    j = traj.length - 1 := by
  unfold simulate_single_run at hsim
  cases hl : simLoop cfg shuffle outcomes cfg.num_hands 0 (initState cfg shuffle) with
  | none => rw [hl] at hsim; exact Option.noConfusion hsim
  | some t =>
    rw [hl] at hsim
    simp only [Option.map_some', Option.some.injEq] at hsim
    subst hsim
    have hpos := simLoop_pos cfg.num_hands 0 (initState cfg shuffle) t
      (by intro x hx; simp [initState] at hx) hl
    by_contra hne
    have hj1 : j < t.bankrolls.dropLast.length := by
      rw [List.length_dropLast]; omega
    have hx := hpos (t.bankrolls.dropLast.get ⟨j, hj1⟩) (List.get_mem _ _ _)
    rw [List.get_eq_getElem, List.getElem_dropLast] at hx
    rw [List.get_eq_getElem] at hle
    linarith

theorem ruin_is_terminal_witness :
    simulate_single_run ⟨1, 1, 1, 1, 1⟩ (fun _ => [Card.c7]) (fun _ => Outcome.lose)
      = some [0] ∧ (0:ℚ) ≤ 0 ∧ (0 : ℕ) = ([(0:ℚ)]).length - 1 :=
  ⟨ruin_run_eval, le_refl 0,
    ruin_is_terminal ⟨1, 1, 1, 1, 1⟩ (fun _ => [Card.c7]) (fun _ => Outcome.lose)
      [0] 0 ruin_run_eval (by norm_num) (le_refl 0)⟩

/-- C4: whenever fewer than 52 cards remain before a draw, the shoe is reset
to a full shuffled multiset of 52*num_decks cards and the running count is
reset to 0; consequently the shoe size never exceeds 52*num_decks across a
run, and every draw is taken from a shoe holding at least 52 cards, so a
draw never fails. -/
theorem reshuffle_resets_and_bounds_shoe (cfg : Config)
    (shuffle : ℕ → List Card) (outcomes : ℕ → Outcome) (o : Outcome)
    (fuel i : ℕ) (s t : SimState) (hd : 1 ≤ cfg.num_decks)
    (hsh : ∀ n, (shuffle n).Perm (cards cfg.num_decks))
    (hlen : s.deck.length ≤ 52 * cfg.num_decks)
    (hrun : simLoop cfg shuffle outcomes fuel i s = some t) :
    (s.deck.length < 52 →
      reshuffleIfNeeded shuffle s =
        { s with deck := shuffle s.nshuffles, running_count := 0,
                 nshuffles := s.nshuffles + 1 } ∧
      (shuffle s.nshuffles).Perm (cards cfg.num_decks) ∧
      (shuffle s.nshuffles).length = 52 * cfg.num_decks) ∧
    52 ≤ (reshuffleIfNeeded shuffle s).deck.length ∧
    (simStep cfg shuffle o s).isSome = true ∧
    t.deck.length ≤ 52 * cfg.num_decks := by
  have hlens : ∀ n, (shuffle n).length = 52 * cfg.num_decks := fun n =>
    ((hsh n).length_eq).trans (cards_length _)
  refine ⟨?_, resh_deck_ge hd hlens s, simStep_isSome o s hd hlens,
    simLoop_deck_le hlens fuel i s t hlen hrun⟩
  intro hlt
  refine ⟨?_, hsh s.nshuffles, hlens s.nshuffles⟩
  unfold reshuffleIfNeeded
  rw [if_pos hlt]

theorem reshuffle_resets_and_bounds_shoe_witness :
    (reshuffleIfNeeded (fun _ => cards 1) ⟨[], 0, 100, [], 0⟩ =
        ⟨cards 1, 0, 100, [], 1⟩ ∧
      (cards 1).Perm (cards 1) ∧ (cards 1).length = 52 * 1) ∧
    52 ≤ (reshuffleIfNeeded (fun _ => cards 1) ⟨[], 0, 100, [], 0⟩).deck.length ∧
    (simStep ⟨100, 1, 1, 1, 1⟩ (fun _ => cards 1) Outcome.push
        ⟨[], 0, 100, [], 0⟩).isSome = true ∧
    (⟨[], 0, 100, [], 0⟩ : SimState).deck.length ≤ 52 * 1 :=
  (reshuffle_resets_and_bounds_shoe ⟨100, 1, 1, 1, 1⟩ (fun _ => cards 1)
      (fun _ => Outcome.push) Outcome.push 0 0 ⟨[], 0, 100, [], 0⟩
      ⟨[], 0, 100, [], 0⟩ (le_refl 1) (fun n => List.Perm.refl _)
      (by norm_num) rfl).imp
    (fun h => h (by norm_num)) id

/-- C9: for a non-empty batch of non-empty trajectories, the aggregator pads
every trajectory to the maximum observed length by appending copies of that
trajectory's own final value, producing a rectangular matrix in which every
row has the common maximum length. -/
theorem padded_results_rectangular (rs : List (List ℚ)) (hne : rs ≠ [])
    (hall : ∀ r ∈ rs, r ≠ []) :
    padded_results rs =
      some (rs.map (fun r =>
        r ++ List.replicate (max_length rs - r.length) (r.getLastD 0))) ∧
    (rs.map (fun r =>
        r ++ List.replicate (max_length rs - r.length) (r.getLastD 0))).map
      List.length = List.replicate rs.length (max_length rs) := by
  constructor
  · unfold padded_results
    rw [if_neg (by simp [List.isEmpty_iff, hne])]
    exact pad_rows_eq _ rs hall
  · exact pad_map_length _ rs (fun r hr => length_le_max_length hr)

theorem padded_results_rectangular_witness :
    ([[5, 7], [3]] : List (List ℚ)) ≠ [] ∧
    (padded_results [[5, 7], [3]] =
      some (([[5, 7], [3]] : List (List ℚ)).map (fun r =>
        r ++ List.replicate (max_length [[5, 7], [3]] - r.length) (r.getLastD 0))) ∧
    (([[5, 7], [3]] : List (List ℚ)).map (fun r =>
        r ++ List.replicate (max_length [[5, 7], [3]] - r.length) (r.getLastD 0))).map
      List.length =
        List.replicate ([[5, 7], [3]] : List (List ℚ)).length
          (max_length [[5, 7], [3]])) :=
  ⟨by simp, padded_results_rectangular [[5, 7], [3]] (by simp) (by simp)⟩

/-- C10: the bankroll is never negative at any point of any trajectory: with
positive min_bet, spread ≥ 1 and non-negative initial bankroll, every
recorded bankroll value is ≥ 0 — the bet is clamped to the bankroll before
the outcome is applied, so a value ≤ 0 (ruin) is exactly 0. -/
theorem bankroll_never_negative (cfg : Config) (shuffle : ℕ → List Card)
    (outcomes : ℕ → Outcome) (traj : List ℚ) (x : ℚ)
    (hmb : 0 < cfg.min_bet) (hsp : 1 ≤ cfg.spread)
    (hb0 : 0 ≤ cfg.initial_bankroll)
    (hsim : simulate_single_run cfg shuffle outcomes = some traj)
    (hx : x ∈ traj) : 0 ≤ x ∧ (x ≤ 0 → x = 0) := by
  unfold simulate_single_run at hsim
  cases hl : simLoop cfg shuffle outcomes cfg.num_hands 0 (initState cfg shuffle) with
  | none => rw [hl] at hsim; exact Option.noConfusion hsim
  | some t =>
    rw [hl] at hsim
    simp only [Option.map_some', Option.some.injEq] at hsim
    subst hsim
    have hall := simLoop_nonneg hmb hsp cfg.num_hands 0 (initState cfg shuffle) t
      hb0 (by intro y hy; simp [initState] at hy) hl
    have h1 := hall x hx
    exact ⟨h1, fun h2 => le_antisymm h2 h1⟩

theorem bankroll_never_negative_witness :
    simulate_single_run ⟨1, 1, 1, 1, 1⟩ (fun _ => [Card.c7]) (fun _ => Outcome.lose)
      = some [0] ∧ (0:ℚ) ∈ [(0:ℚ)] ∧ 0 ≤ (0:ℚ) ∧ (0:ℚ) = 0 :=
  have h := bankroll_never_negative ⟨1, 1, 1, 1, 1⟩ (fun _ => [Card.c7])
    (fun _ => Outcome.lose) [0] 0 (by norm_num) (by norm_num) (by norm_num)
    ruin_run_eval (List.mem_singleton_self 0)
  ⟨ruin_run_eval, List.mem_singleton_self 0, h.1, h.2 (le_refl 0)⟩
